import Mathlib

/-!
Verification of the Mandelbrot WASM renderer (src/src/lib.rs).

The file embeds the two core pieces of the source:

* the GLSL fragment-shader kernel (functions Mandelbrot, Colors, Color and
  the body of main), translated over exact rationals for the iteration loop
  and over the reals for the logarithmic smoothing; the GLSL integer
  operator is truncated remainder (Int.tmod), and a palette lookup that
  falls off the end of Colors without returning (GLSL undefined value) is
  modelled as Option.none;

* the Rust viewport controller (startup constants, on_resize, on_wheel),
  translated over exact rationals, with a four-point value type F32 for
  the places where the source can divide by zero and produce an IEEE
  infinity or NaN (the aspect-ratio computation).
-/

/-! ### Kernel: the Mandelbrot escape loop (fragment shader, lines 44-56) -/

/-- One complex step of the loop body: z := (z.x^2 - z.y^2, 2 z.x z.y) + c. -/
def zstep (c z : ℚ × ℚ) : ℚ × ℚ :=
  (z.1 * z.1 - z.2 * z.2 + c.1, z.2 * z.1 * 2 + c.2)

/-- The squared modulus z2.x + z2.y tested against 4.0 in the shader. -/
def normSq (z : ℚ × ℚ) : ℚ := z.1 * z.1 + z.2 * z.2

/-- The loop of Mandelbrot with explicit fuel: counter i starts at 1, the
escape test happens before each update, and exhausting the fuel returns
iteration index 0. -/
def mandelbrotGo (c : ℚ × ℚ) : ℚ × ℚ → ℤ → ℕ → (ℚ × ℚ) × ℤ
  | z, _, 0 => (z, 0)
  | z, i, n + 1 =>
    if 4 < normSq z then (z, i) else mandelbrotGo c (zstep c z) (i + 1) n

/-- vec3 Mandelbrot(vec2 c): iterate z from z = c for i = 1..iterations,
returning the escape value and index, or index 0 when the budget runs out. -/
def Mandelbrot (c : ℚ × ℚ) (N : ℤ) : (ℚ × ℚ) × ℤ :=
  mandelbrotGo c c 1 N.toNat

/-- The k-th iterate of the loop update starting from z = c. -/
def iter (c : ℚ × ℚ) (k : ℕ) : ℚ × ℚ := (zstep c)^[k] c

/-! ### Kernel: palette and smoothed coloring (lines 58-102) -/

/-- RGBA color. -/
abbrev Vec4 := ℝ × ℝ × ℝ × ℝ

/-- vec4 Colors(int i): n = i % 16 with GLSL truncated remainder, then a
chain of sixteen conditionals for n = 0..15; reaching the end of the
function without a return is GLSL undefined behaviour, modelled as none. -/
noncomputable def Colors (i : ℤ) : Option Vec4 :=
  let n := Int.tmod i 16
  if n = 0 then some (66/255, 30/255, 15/255, 255/255)
  else if n = 1 then some (25/255, 7/255, 26/255, 255/255)
  else if n = 2 then some (9/255, 1/255, 47/255, 255/255)
  else if n = 3 then some (4/255, 4/255, 73/255, 255/255)
  else if n = 4 then some (0/255, 7/255, 100/255, 255/255)
  else if n = 5 then some (12/255, 44/255, 138/255, 255/255)
  else if n = 6 then some (24/255, 82/255, 177/255, 255/255)
  else if n = 7 then some (57/255, 125/255, 209/255, 255/255)
  else if n = 8 then some (134/255, 181/255, 229/255, 255/255)
  else if n = 9 then some (211/255, 236/255, 248/255, 255/255)
  else if n = 10 then some (241/255, 233/255, 191/255, 255/255)
  else if n = 11 then some (248/255, 201/255, 95/255, 255/255)
  else if n = 12 then some (255/255, 170/255, 0/255, 255/255)
  else if n = 13 then some (204/255, 128/255, 0/255, 255/255)
  else if n = 14 then some (153/255, 87/255, 0/255, 255/255)
  else if n = 15 then some (106/255, 52/255, 3/255, 255/255)
  else none

/-- GLSL mix(x, y, a) = x (1 - a) + y a, componentwise. -/
noncomputable def mix (a b : Vec4) (t : ℝ) : Vec4 :=
  (a.1 * (1 - t) + b.1 * t,
   a.2.1 * (1 - t) + b.2.1 * t,
   a.2.2.1 * (1 - t) + b.2.2.1 * t,
   a.2.2.2 * (1 - t) + b.2.2.2 * t)

/-- The fractional effective iteration count of Color(int i, vec2 z):
log_zn = log(|z|^2) / 2, nu = log2(log_zn / log 2), it = i + 1 - nu. -/
noncomputable def itVal (i : ℤ) (z : ℚ × ℚ) : ℝ :=
  (i : ℝ) + 1 - Real.logb 2 (Real.log ((normSq z : ℚ) : ℝ) / 2 / Real.log 2)

/-- vec4 Color(int i, vec2 z): look up the palette at floor(it) and
floor(it) + 1 and blend by fract(it). -/
noncomputable def Color (i : ℤ) (z : ℚ × ℚ) : Option Vec4 :=
  let it := itVal i z
  let i0 := ⌊it⌋
  (Colors i0).bind fun color1 =>
    (Colors (i0 + 1)).map fun color2 => mix color1 color2 (Int.fract it)

/-- The body of main for a complex coordinate c: interior points (index 0)
are opaque black, escaped points are colored by Color. -/
noncomputable def shaderMain (c : ℚ × ℚ) (N : ℤ) : Option Vec4 :=
  let m := Mandelbrot c N
  if m.2 = 0 then some (0, 0, 0, 1) else Color m.2 m.1

/-- Spec side (section 4.1/5 of the spec): the palette as a total cyclic
table indexed by i mod 16 (mathematical remainder, always in 0..15). -/
noncomputable def ColorsSpec (i : ℤ) : Vec4 :=
  let n := i % 16
  if n = 0 then (66/255, 30/255, 15/255, 255/255)
  else if n = 1 then (25/255, 7/255, 26/255, 255/255)
  else if n = 2 then (9/255, 1/255, 47/255, 255/255)
  else if n = 3 then (4/255, 4/255, 73/255, 255/255)
  else if n = 4 then (0/255, 7/255, 100/255, 255/255)
  else if n = 5 then (12/255, 44/255, 138/255, 255/255)
  else if n = 6 then (24/255, 82/255, 177/255, 255/255)
  else if n = 7 then (57/255, 125/255, 209/255, 255/255)
  else if n = 8 then (134/255, 181/255, 229/255, 255/255)
  else if n = 9 then (211/255, 236/255, 248/255, 255/255)
  else if n = 10 then (241/255, 233/255, 191/255, 255/255)
  else if n = 11 then (248/255, 201/255, 95/255, 255/255)
  else if n = 12 then (255/255, 170/255, 0/255, 255/255)
  else if n = 13 then (204/255, 128/255, 0/255, 255/255)
  else if n = 14 then (153/255, 87/255, 0/255, 255/255)
  else (106/255, 52/255, 3/255, 255/255)

/-- Spec side: the smoothed coloring formula of section 4.1 with the total
cyclic palette, blending ColorsSpec at floor(it) and floor(it) + 1 by
fract(it). -/
noncomputable def smoothColorSpec (i : ℤ) (z : ℚ × ℚ) : Vec4 :=
  let it := itVal i z
  mix (ColorsSpec ⌊it⌋) (ColorsSpec (⌊it⌋ + 1)) (Int.fract it)

/-! ### Viewport controller (lib.rs: startup, on_resize, on_wheel) -/

/-- Minimal IEEE-style single value: a finite rational, the two infinities
or NaN. Only the operations actually reached by the controller's bounds
computation are modelled. -/
inductive F32 where
  | fin (q : ℚ)
  | posInf
  | negInf
  | nan
deriving DecidableEq, Repr

/-- Division of two finite floats, with the IEEE results for a zero
divisor (used for ratio = width / height). -/
def fdiv (a b : ℚ) : F32 :=
  if b = 0 then (if a = 0 then .nan else if 0 < a then .posInf else .negInf)
  else .fin (a / b)

/-- Division of a finite float by a possibly non-finite one (used for
zoom / ratio). The finite dividends reaching this are positive (zoom). -/
def fdivF (a : ℚ) : F32 → F32
  | .fin q => fdiv a q
  | .posInf => .fin 0
  | .negInf => .fin 0
  | .nan => .nan

/-- Finite minus possibly non-finite (used for center - zoom / ratio). -/
def fsub (a : ℚ) : F32 → F32
  | .fin q => .fin (a - q)
  | .posInf => .negInf
  | .negInf => .posInf
  | .nan => .nan

/-- Finite plus possibly non-finite (used for center + zoom / ratio). -/
def fadd (a : ℚ) : F32 → F32
  | .fin q => .fin (a + q)
  | .posInf => .posInf
  | .negInf => .negInf
  | .nan => .nan

/-- Whether a float value is finite. -/
def F32.isFinite : F32 → Bool
  | .fin _ => true
  | _ => false

/-- const ZOOM_IN: f32 = 0.8. -/
def ZOOM_IN : ℚ := 8 / 10

/-- Rust f32::round: round half away from zero. -/
def rustRound (x : ℚ) : ℤ :=
  if 0 ≤ x then ⌊x + 1 / 2⌋ else ⌈x - 1 / 2⌉

/-- The controller state: the shared cells iterations, zoom, center, min
and max of the source, together with the canvas resolution. -/
structure ViewportState where
  iterations : ℤ
  zoom : ℚ
  center : ℚ × ℚ
  resolution : ℚ × ℚ
  bmin : F32 × F32
  bmax : F32 × F32
deriving DecidableEq, Repr

/-- The bounds recomputation shared by startup, on_resize and on_wheel:
ratio = w / h, re bounds = center.re -+ zoom, im bounds =
center.im -+ zoom / ratio. -/
def boundsOf (center : ℚ × ℚ) (zoom w h : ℚ) : (F32 × F32) × (F32 × F32) :=
  let ratio := fdiv w h
  let ih := fdivF zoom ratio
  ((.fin (center.1 - zoom), fsub center.2 ih),
   (.fin (center.1 + zoom), fadd center.2 ih))

/-- Startup state: iterations = 100, zoom = 1.8, center = (-0.7, 0), and
the derived bounds for the initial window size. -/
def initState (w h : ℚ) : ViewportState :=
  { iterations := 100
    zoom := 9 / 5
    center := (-7 / 10, 0)
    resolution := (w, h)
    bmin := (boundsOf (-7 / 10, 0) (9 / 5) w h).1
    bmax := (boundsOf (-7 / 10, 0) (9 / 5) w h).2 }

/-- The resize handler closure (lib.rs lines 222-259): read the new window
size, store it, recompute ratio and bounds from the unchanged center and
zoom, leave iterations, zoom and center untouched. -/
def on_resize (s : ViewportState) (w h : ℚ) : ViewportState :=
  { s with
    resolution := (w, h)
    bmin := (boundsOf s.center s.zoom w h).1
    bmax := (boundsOf s.center s.zoom w h).2 }

/-- The wheel handler closure (lib.rs lines 293-343). zoom_flag is
delta_y < 0. On zoom-in the handler first rescales iterations, then pans
the center using the pre-update zoom, then multiplies zoom by ZOOM_IN.
On zoom-out it multiplies zoom by 1 / ZOOM_IN first, then rescales
iterations and pans using the already-updated zoom. Bounds are then
recomputed; the stored resolution is not touched. -/
def on_wheel (s : ViewportState) (deltaY cx cy w h : ℚ) : ViewportState :=
  let zoom_flag := deltaY < 0
  let iterations1 :=
    if zoom_flag then rustRound ((s.iterations : ℚ) * (11 / 10)) else s.iterations
  let re1 :=
    if zoom_flag then
      s.center.1 + (cx - w / 2) / (w / 2) * (s.zoom * (1 - ZOOM_IN))
    else s.center.1
  let im1 :=
    if zoom_flag then
      s.center.2 - (cy - h / 2) / (h / 2) * (s.zoom * (1 - ZOOM_IN))
    else s.center.2
  let zoom1 := s.zoom * (if zoom_flag then ZOOM_IN else 1 / ZOOM_IN)
  let iterations2 :=
    if zoom_flag then iterations1 else rustRound ((iterations1 : ℚ) / (11 / 10))
  let re2 :=
    if zoom_flag then re1
    else re1 - (cx - w / 2) / (w / 2) * (zoom1 * (1 - ZOOM_IN))
  let im2 :=
    if zoom_flag then im1
    else im1 + (cy - h / 2) / (h / 2) * (zoom1 * (1 - ZOOM_IN))
  { s with
    iterations := iterations2
    zoom := zoom1
    center := (re2, im2)
    bmin := (boundsOf (re2, im2) zoom1 w h).1
    bmax := (boundsOf (re2, im2) zoom1 w h).2 }

/-- Spec side (claim C4 wording): a scroll handler that applies the
cursor-anchored pan first, using the pre-update zoom for the pan-offset
magnitude in both directions (toward the cursor on zoom-in, away from it
on zoom-out, vertical axis sign-inverted), then the zoom multiplier, then
the iteration rescale. -/
def scrollSpec (s : ViewportState) (deltaY cx cy w h : ℚ) : ViewportState :=
  let zoom_flag := deltaY < 0
  let dir : ℚ := if zoom_flag then 1 else -1
  let re1 := s.center.1 + dir * ((cx - w / 2) / (w / 2) * (s.zoom * (1 - ZOOM_IN)))
  let im1 := s.center.2 - dir * ((cy - h / 2) / (h / 2) * (s.zoom * (1 - ZOOM_IN)))
  let zoom1 := s.zoom * (if zoom_flag then ZOOM_IN else 1 / ZOOM_IN)
  let iterations1 :=
    if zoom_flag then rustRound ((s.iterations : ℚ) * (11 / 10))
    else rustRound ((s.iterations : ℚ) / (11 / 10))
  { s with
    iterations := iterations1
    zoom := zoom1
    center := (re1, im1)
    bmin := (boundsOf (re1, im1) zoom1 w h).1
    bmax := (boundsOf (re1, im1) zoom1 w h).2 }

/-! ### Loop characterization lemmas -/

/-- If no test in the first n iterations passes, the loop runs to the end
and reports index 0 with the n-times-updated z. -/
lemma go_no_escape (c : ℚ × ℚ) (n : ℕ) :
    ∀ (z : ℚ × ℚ) (i : ℤ),
      (∀ k, k < n → normSq ((zstep c)^[k] z) ≤ 4) →
      mandelbrotGo c z i n = ((zstep c)^[n] z, 0) := by
  induction n with
  | zero => intro z i _; simp [mandelbrotGo]
  | succ n ih =>
    intro z i h
    have h0 : normSq z ≤ 4 := by simpa using h 0 (by omega)
    simp only [mandelbrotGo]
    rw [if_neg (not_lt.mpr h0)]
    have hrec := ih (zstep c z) (i + 1) (fun k hk => by
      have := h (k + 1) (by omega)
      rwa [Function.iterate_succ_apply] at this)
    rw [hrec, Function.iterate_succ_apply]

/-- If the first passing test is at the k-th updated z (k < n), the loop
stops there and reports that z with index i + k. -/
lemma go_escape (c : ℚ × ℚ) (n : ℕ) :
    ∀ (k : ℕ) (z : ℚ × ℚ) (i : ℤ), k < n →
      4 < normSq ((zstep c)^[k] z) →
      (∀ j, j < k → normSq ((zstep c)^[j] z) ≤ 4) →
      mandelbrotGo c z i n = ((zstep c)^[k] z, i + k) := by
  induction n with
  | zero => intro k z i hk; omega
  | succ n ih =>
    intro k z i hk hesc hpre
    match k with
    | 0 =>
      simp only [Function.iterate_zero_apply] at hesc
      simp only [mandelbrotGo]
      rw [if_pos hesc]
      simp
    | k + 1 =>
      have h0 : normSq z ≤ 4 := by simpa using hpre 0 (by omega)
      simp only [mandelbrotGo]
      rw [if_neg (not_lt.mpr h0)]
      have hrec := ih k (zstep c z) (i + 1) (by omega)
        (by rw [← Function.iterate_succ_apply]; exact hesc)
        (fun j hj => by
          rw [← Function.iterate_succ_apply]
          exact hpre (j + 1) (by omega))
      rw [hrec, Function.iterate_succ_apply]
      congr 1
      push_cast
      ring

/-- The origin is a fixed point of the loop update. -/
lemma iter_origin (k : ℕ) : iter ((0:ℚ), (0:ℚ)) k = (0, 0) := by
  induction k with
  | zero => rfl
  | succ k ih =>
    unfold iter at ih ⊢
    rw [Function.iterate_succ_apply', ih]
    simp [zstep]

/-! ### Logarithm helper lemmas -/

/-- log2 of a power of two. -/
lemma logb2_pow (n : ℕ) : Real.logb 2 ((2:ℝ) ^ n) = n := by
  rw [Real.logb, Real.log_pow, mul_div_assoc,
    div_self (ne_of_gt (Real.log_pos (by norm_num))), mul_one]

/-- log2 is strictly monotone on positives. -/
lemma logb2_lt_logb2 {x y : ℝ} (hx : 0 < x) (h : x < y) :
    Real.logb 2 x < Real.logb 2 y := by
  rw [Real.logb, Real.logb]
  exact div_lt_div_of_pos_right (Real.log_lt_log hx h) (Real.log_pos (by norm_num))

/-- The shader's nu argument log(ns) / 2 / log 2 is log2(ns) / 2. -/
lemma itVal_eq (i : ℤ) (z : ℚ × ℚ) :
    itVal i z = (i : ℝ) + 1 - Real.logb 2 (Real.logb 2 ((normSq z : ℚ) : ℝ) / 2) := by
  have harg : Real.log ((normSq z : ℚ) : ℝ) / 2 / Real.log 2
      = Real.logb 2 ((normSq z : ℚ) : ℝ) / 2 := by
    rw [Real.logb]; ring
  rw [itVal, harg]

/-- Bracketing nu: if 2 ^ 2 ^ (k+1) < ns < 2 ^ 2 ^ (k+2) then
k < log2(log2(ns) / 2) < k + 1. -/
lemma nu_bounds {ns : ℝ} {k : ℕ}
    (h1 : (2:ℝ) ^ (2 ^ (k + 1)) < ns) (h2 : ns < (2:ℝ) ^ (2 ^ (k + 2))) :
    (k : ℝ) < Real.logb 2 (Real.logb 2 ns / 2)
      ∧ Real.logb 2 (Real.logb 2 ns / 2) < (k : ℝ) + 1 := by
  have hpow1 : (0:ℝ) < (2:ℝ) ^ (2 ^ (k + 1)) := by positivity
  have hlow : ((2 ^ (k + 1) : ℕ) : ℝ) < Real.logb 2 ns := by
    have h := logb2_lt_logb2 hpow1 h1
    rwa [logb2_pow] at h
  have hhigh : Real.logb 2 ns < ((2 ^ (k + 2) : ℕ) : ℝ) := by
    have h := logb2_lt_logb2 (lt_trans hpow1 h1) h2
    rwa [logb2_pow] at h
  constructor
  · have harg : (2:ℝ) ^ k < Real.logb 2 ns / 2 := by
      rw [lt_div_iff₀ (by norm_num : (0:ℝ) < 2)]
      calc (2:ℝ) ^ k * 2 = (2:ℝ) ^ (k + 1) := by ring
        _ = ((2 ^ (k + 1) : ℕ) : ℝ) := by push_cast; ring
        _ < Real.logb 2 ns := hlow
    have h := logb2_lt_logb2 (by positivity : (0:ℝ) < (2:ℝ) ^ k) harg
    rwa [logb2_pow] at h
  · have harg : Real.logb 2 ns / 2 < (2:ℝ) ^ (k + 1) := by
      rw [div_lt_iff₀ (by norm_num : (0:ℝ) < 2)]
      calc Real.logb 2 ns < ((2 ^ (k + 2) : ℕ) : ℝ) := hhigh
        _ = (2:ℝ) ^ (k + 2) := by push_cast; ring
        _ = (2:ℝ) ^ (k + 1) * 2 := by ring
    have hpos : (0:ℝ) < Real.logb 2 ns / 2 := by
      have : ((2 ^ (k + 1) : ℕ) : ℝ) > 0 := by positivity
      linarith
    have h := logb2_lt_logb2 hpos harg
    rw [logb2_pow] at h
    have hcast : ((k + 1 : ℕ) : ℝ) = (k : ℝ) + 1 := by push_cast; ring
    linarith [h]

/-! ### Concrete values of the smoothing computation -/

/-- For the escape value z = (6, 0) at index 2 (the point c = (2, 0)),
floor(it) = 1: here |z|^2 = 36 lies strictly between 2^4 and 2^8. -/
lemma floor_itVal_six : ⌊itVal 2 ((6:ℚ), (0:ℚ))⌋ = 1 := by
  have hns : ((normSq ((6:ℚ), (0:ℚ)) : ℚ) : ℝ) = 36 := by norm_num [normSq]
  rw [itVal_eq, hns]
  have hb := @nu_bounds 36 1 (by norm_num) (by norm_num)
  rw [Int.floor_eq_iff]
  push_cast at hb ⊢
  constructor
  · linarith [hb.2]
  · linarith [hb.1]

/-- For the escape value z = (-20, 0) at index 1 (the point c = (-20, 0)),
floor(it) = -1: here |z|^2 = 400 lies strictly between 2^8 and 2^16. -/
lemma floor_itVal_neg20 : ⌊itVal 1 ((-20:ℚ), (0:ℚ))⌋ = -1 := by
  have hns : ((normSq ((-20:ℚ), (0:ℚ)) : ℚ) : ℝ) = 400 := by norm_num [normSq]
  rw [itVal_eq, hns]
  have hb := @nu_bounds 400 2 (by norm_num) (by norm_num)
  rw [Int.floor_eq_iff]
  push_cast at hb ⊢
  constructor
  · linarith [hb.2]
  · linarith [hb.1]

/-- For the escape value z = (16, 0) at index 1, it is exactly 0:
|z|^2 = 256 = 2 ^ 2 ^ 3, so nu = 2 exactly. -/
lemma itVal_sixteen : itVal 1 ((16:ℚ), (0:ℚ)) = 0 := by
  have hns : ((normSq ((16:ℚ), (0:ℚ)) : ℚ) : ℝ) = 256 := by norm_num [normSq]
  rw [itVal_eq, hns]
  rw [show (256:ℝ) = (2:ℝ) ^ (8:ℕ) by norm_num, logb2_pow]
  rw [show (((8:ℕ)):ℝ) / 2 = (2:ℝ) ^ (2:ℕ) by norm_num, logb2_pow]
  norm_num

/-! ### Palette lemmas -/

/-- Truncated remainder negates with its dividend. -/
lemma neg_tmod (a b : ℤ) : (-a).tmod b = -(a.tmod b) := by
  rw [Int.tmod_def, Int.tmod_def, Int.neg_tdiv]
  ring

/-- When the truncated remainder is negative, none of the sixteen branch
tests of Colors can match, and the lookup falls through with no value. -/
lemma Colors_of_neg (n : ℤ) (h : n.tmod 16 < 0) : Colors n = none := by
  have hlb : -16 < n.tmod 16 := by
    have h2 := Int.tmod_lt_of_pos (-n) (show (0:ℤ) < 16 by norm_num)
    rw [neg_tmod] at h2
    omega
  simp only [Colors]
  set m := n.tmod 16 with hm
  interval_cases m <;> rfl

/-- When the truncated remainder is non-negative, one of the sixteen
branches of Colors matches and the lookup is defined. -/
lemma Colors_ne_none (n : ℤ) (h : 0 ≤ n.tmod 16) : Colors n ≠ none := by
  have hlt : n.tmod 16 < 16 := Int.tmod_lt_of_pos n (by norm_num)
  simp only [Colors]
  set m := n.tmod 16 with hm
  interval_cases m <;> simp

/-- Colors is undefined (falls through without a return) exactly when the
truncated remainder of its argument is negative. -/
lemma Colors_eq_none_iff (n : ℤ) : Colors n = none ↔ n.tmod 16 < 0 := by
  refine ⟨fun h => ?_, fun h => Colors_of_neg n h⟩
  by_contra hge
  exact Colors_ne_none n (by omega) h

/-- On non-negative arguments the branching lookup agrees with the total
cyclic table of the spec. -/
lemma Colors_nonneg_eq (n : ℤ) (hn : 0 ≤ n) : Colors n = some (ColorsSpec n) := by
  have he : n.tmod 16 = n % 16 := Int.tmod_eq_emod hn (by norm_num)
  have hb0 : 0 ≤ n % 16 := Int.emod_nonneg n (by norm_num)
  have hb1 : n % 16 < 16 := Int.emod_lt_of_pos n (by norm_num)
  simp only [Colors, ColorsSpec, he]
  set m := n % 16 with hm
  interval_cases m <;> simp

/-- The cyclic table has period 16. -/
lemma ColorsSpec_period (n : ℤ) : ColorsSpec (n + 16) = ColorsSpec n := by
  simp only [ColorsSpec]
  rw [show n + 16 = n + 16 * 1 by ring, Int.add_mul_emod_self_left]

/-- Blending with weight 0 returns the first color unchanged. -/
lemma mix_zero (a b : Vec4) : mix a b 0 = a := by
  obtain ⟨a1, a2, a3, a4⟩ := a
  obtain ⟨b1, b2, b3, b4⟩ := b
  simp [mix]

/-- Palette entry 1 (used by the escape point c = (2, 0)). -/
lemma Colors_one : Colors 1 = some (25/255, 7/255, 26/255, 255/255) := by
  have ht : (1:ℤ).tmod 16 = 1 := by decide
  simp only [Colors, ht]
  norm_num

/-- Palette entry 2 (used by the escape point c = (2, 0)). -/
lemma Colors_two : Colors 2 = some (9/255, 1/255, 47/255, 255/255) := by
  have ht : (2:ℤ).tmod 16 = 2 := by decide
  simp only [Colors, ht]
  norm_num

/-- The lookup at -1 falls through: tmod (-1) 16 = -1. -/
lemma Colors_neg_one : Colors (-1) = none :=
  Colors_of_neg (-1) (by decide)

/-- The escaped point c = (-20, 0) reaches the undefined palette branch:
floor(it) = -1, so Color returns no value. -/
lemma Color_neg20 : Color 1 ((-20:ℚ), (0:ℚ)) = none := by
  simp only [Color]
  rw [floor_itVal_neg20, Colors_neg_one]
  rfl

/-! ### Evaluation lemmas for concrete inputs -/

lemma iter_zero (c : ℚ × ℚ) : iter c 0 = c := rfl

lemma iter_succ (c : ℚ × ℚ) (k : ℕ) : iter c (k + 1) = zstep c (iter c k) :=
  Function.iterate_succ_apply' (zstep c) k c

/-- The first update from c = (2, 0) gives (6, 0). -/
lemma iter_two_one : iter ((2:ℚ), (0:ℚ)) 1 = ((6:ℚ), (0:ℚ)) := by
  rw [show (1:ℕ) = 0 + 1 from rfl, iter_succ, iter_zero]
  norm_num [zstep]

/-- The kernel on c = (2, 0): the first test has |z|^2 = 4 (not above 4),
the second test sees z = (6, 0) with |z|^2 = 36 and escapes at index 2. -/
lemma Mandelbrot_two (N : ℤ) (hN : 2 ≤ N) :
    Mandelbrot ((2:ℚ), (0:ℚ)) N = (((6:ℚ), (0:ℚ)), 2) := by
  have h := go_escape ((2:ℚ), (0:ℚ)) N.toNat 1 ((2:ℚ), (0:ℚ)) 1 (by omega)
    (by
      have h1 := iter_two_one
      unfold iter at h1
      rw [h1]
      norm_num [normSq])
    (fun j hj => by
      interval_cases j
      norm_num [normSq])
  unfold Mandelbrot
  rw [h]
  have h1 := iter_two_one
  unfold iter at h1
  rw [h1]
  norm_num

/-- The kernel on c = (-20, 0) escapes on the very first test (|c|^2 = 400)
and returns z = c with index 1. -/
lemma Mandelbrot_neg20 (N : ℤ) (hN : 1 ≤ N) :
    Mandelbrot ((-20:ℚ), (0:ℚ)) N = ((((-20):ℚ), (0:ℚ)), 1) := by
  have h := go_escape ((-20:ℚ), (0:ℚ)) N.toNat 0 ((-20:ℚ), (0:ℚ)) 1 (by omega)
    (by norm_num [normSq]) (fun j hj => by omega)
  unfold Mandelbrot
  rw [h]
  norm_num

/-! ### Claim theorems -/

/-- C1: the kernel iterates z := z^2 + c starting from z = c for i = 1..N,
testing |z|^2 > 4 before each update and recording (z, i) at the first
passing test; for c = (2, 0) the first test has |c|^2 = 4 (no escape), the
next iterate is (6, 0), escape is detected at iteration index 2, and the
resulting color differs from interior black. -/
theorem C1_escape_loop :
    (∀ (c : ℚ × ℚ) (N : ℤ) (k : ℕ), k < N.toNat →
        4 < normSq (iter c k) → (∀ j, j < k → normSq (iter c j) ≤ 4) →
        Mandelbrot c N = (iter c k, 1 + (k:ℤ))) ∧
    (∀ N : ℤ, 2 ≤ N →
        normSq ((2:ℚ), (0:ℚ)) = 4 ∧
        iter ((2:ℚ), (0:ℚ)) 1 = ((6:ℚ), (0:ℚ)) ∧
        Mandelbrot ((2:ℚ), (0:ℚ)) N = (((6:ℚ), (0:ℚ)), 2) ∧
        ∃ v, shaderMain ((2:ℚ), (0:ℚ)) N = some v
          ∧ v ≠ ((0:ℝ), (0:ℝ), (0:ℝ), (1:ℝ))) := by
  have hgen : ∀ (c : ℚ × ℚ) (N : ℤ) (k : ℕ), k < N.toNat →
      4 < normSq (iter c k) → (∀ j, j < k → normSq (iter c j) ≤ 4) →
      Mandelbrot c N = (iter c k, 1 + (k:ℤ)) := by
    intro c N k hk hesc hpre
    unfold Mandelbrot
    unfold iter at hesc hpre ⊢
    exact go_escape c N.toNat k c 1 hk hesc hpre
  refine ⟨hgen, fun N hN => ?_⟩
  have hM := Mandelbrot_two N hN
  have hfr0 : 0 ≤ Int.fract (itVal 2 ((6:ℚ), (0:ℚ))) := Int.fract_nonneg _
  have hfr1 : Int.fract (itVal 2 ((6:ℚ), (0:ℚ))) < 1 := Int.fract_lt_one _
  refine ⟨by norm_num [normSq], iter_two_one, hM, ?_⟩
  refine ⟨mix (25/255, 7/255, 26/255, 255/255) (9/255, 1/255, 47/255, 255/255)
    (Int.fract (itVal 2 ((6:ℚ), (0:ℚ)))), ?_, ?_⟩
  · simp only [shaderMain, hM]
    rw [if_neg (by norm_num)]
    simp only [Color]
    rw [floor_itVal_six, Colors_one, show (1:ℤ) + 1 = 2 from rfl, Colors_two]
    rfl
  · intro hEq
    have h3 : (26:ℝ)/255 * (1 - Int.fract (itVal 2 ((6:ℚ), (0:ℚ))))
        + 47/255 * Int.fract (itVal 2 ((6:ℚ), (0:ℚ))) = 0 := by
      have hc := congrArg (fun v : Vec4 => v.2.2.1) hEq
      simpa [mix] using hc
    nlinarith [hfr0, hfr1]

/-- Witness for C1 at the concrete budget N = 100. -/
theorem C1_escape_loop_witness :
    (2:ℤ) ≤ 100 ∧
    (normSq ((2:ℚ), (0:ℚ)) = 4 ∧
     iter ((2:ℚ), (0:ℚ)) 1 = ((6:ℚ), (0:ℚ)) ∧
     Mandelbrot ((2:ℚ), (0:ℚ)) 100 = (((6:ℚ), (0:ℚ)), 2) ∧
     ∃ v, shaderMain ((2:ℚ), (0:ℚ)) 100 = some v
       ∧ v ≠ ((0:ℝ), (0:ℝ), (0:ℝ), (1:ℝ))) :=
  ⟨by norm_num, C1_escape_loop.2 100 (by norm_num)⟩

/-- C2: a coordinate whose iterates never exceed modulus-squared 4 within
the budget reports iteration index 0 and renders opaque black; in
particular the origin does, for every budget N ≥ 1. -/
theorem C2_interior_black :
    (∀ (c : ℚ × ℚ) (N : ℤ),
        (∀ k, k < N.toNat → normSq (iter c k) ≤ 4) →
        Mandelbrot c N = (iter c N.toNat, 0)
          ∧ shaderMain c N = some (0, 0, 0, 1)) ∧
    (∀ N : ℤ, 1 ≤ N →
        (Mandelbrot ((0:ℚ), (0:ℚ)) N).2 = 0
          ∧ shaderMain ((0:ℚ), (0:ℚ)) N = some (0, 0, 0, 1)) := by
  have hmain : ∀ (c : ℚ × ℚ) (N : ℤ),
      (∀ k, k < N.toNat → normSq (iter c k) ≤ 4) →
      Mandelbrot c N = (iter c N.toNat, 0)
        ∧ shaderMain c N = some (0, 0, 0, 1) := by
    intro c N h
    have hM : Mandelbrot c N = (iter c N.toNat, 0) := by
      unfold Mandelbrot
      unfold iter at h ⊢
      exact go_no_escape c N.toNat c 1 h
    exact ⟨hM, by simp [shaderMain, hM]⟩
  refine ⟨hmain, fun N hN => ?_⟩
  have h := hmain ((0:ℚ), (0:ℚ)) N
    (fun k _ => by rw [iter_origin]; norm_num [normSq])
  exact ⟨by rw [h.1], h.2⟩

/-- Witness for C2 at the origin with the concrete budget N = 3. -/
theorem C2_interior_black_witness :
    (∀ k, k < (3:ℤ).toNat → normSq (iter ((0:ℚ), (0:ℚ)) k) ≤ 4) ∧
    (Mandelbrot ((0:ℚ), (0:ℚ)) 3 = (iter ((0:ℚ), (0:ℚ)) 3, 0)
      ∧ shaderMain ((0:ℚ), (0:ℚ)) 3 = some (0, 0, 0, 1)) :=
  ⟨fun k _ => by rw [iter_origin]; norm_num [normSq],
   C2_interior_black.1 ((0:ℚ), (0:ℚ)) 3
     (fun k _ => by rw [iter_origin]; norm_num [normSq])⟩

/-- C3 counterexample: at c = (-20, 0) with N = 1 the point escapes with
recorded index 1 and z = (-20, 0), but the kernel output is undefined
(floor(it) = -1 makes the palette lookup fall through), not the smoothed
interpolation of the cyclic palette demanded by the claim. -/
theorem C3_counterexample :
    (Mandelbrot ((-20:ℚ), (0:ℚ)) 1).2 = 1 ∧
    shaderMain ((-20:ℚ), (0:ℚ)) 1 = none ∧
    shaderMain ((-20:ℚ), (0:ℚ)) 1
      ≠ some (smoothColorSpec (Mandelbrot ((-20:ℚ), (0:ℚ)) 1).2
              (Mandelbrot ((-20:ℚ), (0:ℚ)) 1).1) := by
  have hM := Mandelbrot_neg20 1 (by norm_num)
  have hs : shaderMain ((-20:ℚ), (0:ℚ)) 1 = none := by
    simp only [shaderMain, hM]
    rw [if_neg (by norm_num)]
    exact Color_neg20
  refine ⟨by rw [hM], hs, ?_⟩
  rw [hs]
  simp

/-- C3 amended: for every escaped point whose smoothed index floor(it) is
non-negative, the kernel output is exactly the spec's smoothed coloring
formula (lerp between the cyclic palette entries at floor(it) and
floor(it) + 1 with weight fract(it)); for negative floor(it) the palette
lookup of the code is undefined. -/
theorem C3_smooth_coloring :
    ∀ (c : ℚ × ℚ) (N : ℤ), (Mandelbrot c N).2 ≠ 0 →
      0 ≤ ⌊itVal (Mandelbrot c N).2 (Mandelbrot c N).1⌋ →
      shaderMain c N
        = some (smoothColorSpec (Mandelbrot c N).2 (Mandelbrot c N).1) := by
  intro c N h0 hfl
  simp only [shaderMain]
  rw [if_neg h0]
  simp only [Color, smoothColorSpec]
  rw [Colors_nonneg_eq _ hfl, Colors_nonneg_eq _ (by omega)]
  rfl

/-- Witness for the amended C3 at c = (2, 0), N = 100. -/
theorem C3_smooth_coloring_witness :
    shaderMain ((2:ℚ), (0:ℚ)) 100
      = some (smoothColorSpec (Mandelbrot ((2:ℚ), (0:ℚ)) 100).2
              (Mandelbrot ((2:ℚ), (0:ℚ)) 100).1) :=
  C3_smooth_coloring ((2:ℚ), (0:ℚ)) 100
    (by rw [Mandelbrot_two 100 (by norm_num)]; simp)
    (by
      rw [Mandelbrot_two 100 (by norm_num)]
      show (0:ℤ) ≤ ⌊itVal 2 ((6:ℚ), (0:ℚ))⌋
      rw [floor_itVal_six]
      norm_num)

/-- C9 counterexample: the palette lookup is not cyclic with period 16 on
all indices: Colors (-8) is undefined (tmod (-8) 16 = -8 matches no
branch) while Colors (-8 + 16) = Colors 8 is defined. -/
theorem C9_counterexample :
    Colors (-8) = none ∧ Colors (-8 + 16) ≠ none := by
  refine ⟨Colors_of_neg (-8) (by decide), ?_⟩
  rw [show (-8:ℤ) + 16 = 8 by norm_num]
  exact Colors_ne_none 8 (by decide)

/-- C9 amended: the palette lookup is cyclic with period 16 on
non-negative indices, and when the smoothed iteration value it is an exact
integer with a non-negative floor, the kernel blends with weight 0 and the
output equals exactly the palette entry at floor(it) (mod 16 taken inside
Colors), with no blending. -/
theorem C9_palette_cycling :
    (∀ i : ℤ, 0 ≤ i → Colors (i + 16) = Colors i) ∧
    (∀ (i : ℤ) (z : ℚ × ℚ), 0 ≤ ⌊itVal i z⌋ → Int.fract (itVal i z) = 0 →
      Color i z = Colors ⌊itVal i z⌋) := by
  constructor
  · intro i hi
    rw [Colors_nonneg_eq i hi, Colors_nonneg_eq (i + 16) (by omega),
      ColorsSpec_period]
  · intro i z hfl hfr
    simp only [Color]
    rw [Colors_nonneg_eq _ hfl, Colors_nonneg_eq _ (by omega), hfr]
    simp [mix_zero]

/-- Witness for the amended C9 at i = 1, z = (16, 0), where it = 0 exactly. -/
theorem C9_palette_cycling_witness :
    Color 1 ((16:ℚ), (0:ℚ)) = Colors ⌊itVal 1 ((16:ℚ), (0:ℚ))⌋ :=
  C9_palette_cycling.2 1 ((16:ℚ), (0:ℚ))
    (by rw [itVal_sixteen]; norm_num)
    (by rw [itVal_sixteen]; exact Int.fract_zero)

/-- C10 counterexample: Colors does return a defined color at a negative
argument: tmod (-16) 16 = 0 hits the first branch, so definedness is not
equivalent to a non-negative argument. -/
theorem C10_counterexample :
    (-16:ℤ) < 0 ∧ Colors (-16) ≠ none :=
  ⟨by norm_num, Colors_ne_none (-16) (by decide)⟩

/-- C10 amended: Colors falls through without any returned value exactly
when tmod i 16 < 0, i.e. for negative arguments not divisible by 16; the
sixteen branches cover remainders 0..15 only, and such arguments are
reachable from the smoothing path: for the escaped input c = (-20, 0)
(escape at index 1, |z|^2 = 400, nu above i + 1) floor(it) = -1 and the
kernel output is undefined. -/
theorem C10_undefined_palette :
    (∀ n : ℤ, Colors n = none ↔ n.tmod 16 < 0) ∧
    ((Mandelbrot ((-20:ℚ), (0:ℚ)) 1).2 = 1 ∧
     ⌊itVal 1 ((-20:ℚ), (0:ℚ))⌋ = -1 ∧
     Color 1 ((-20:ℚ), (0:ℚ)) = none ∧
     shaderMain ((-20:ℚ), (0:ℚ)) 1 = none) := by
  refine ⟨Colors_eq_none_iff, ?_, floor_itVal_neg20, Color_neg20, ?_⟩
  · rw [Mandelbrot_neg20 1 (by norm_num)]
  · simp only [shaderMain, Mandelbrot_neg20 1 (by norm_num)]
    rw [if_neg (by norm_num)]
    exact Color_neg20

/-- C4 counterexample: on a zoom-out event the pan offset is not computed
from the pre-update zoom. From the startup state with the cursor at the
right edge, the code pans by the post-update zoom (1.25 times larger), so
the resulting center differs from the claimed one. -/
theorem C4_counterexample :
    (on_wheel (initState 100 100) 1 100 50 100 100).center
      ≠ (scrollSpec (initState 100 100) 1 100 50 100 100).center := by
  norm_num [on_wheel, scrollSpec, initState, ZOOM_IN, rustRound]

/-- C4 amended: on zoom-in the handler's result equals the spec order
(pan with pre-update zoom, then zoom multiplier, then iteration rescale);
on zoom-out the zoom multiplier is applied first and the pan-offset
magnitude uses the post-update zoom s.zoom / ZOOM_IN, with the vertical
contribution sign-inverted relative to the horizontal one. -/
theorem C4_scroll_order :
    ∀ (s : ViewportState) (deltaY cx cy w h : ℚ),
      (deltaY < 0 →
        on_wheel s deltaY cx cy w h = scrollSpec s deltaY cx cy w h) ∧
      (¬ deltaY < 0 →
        (on_wheel s deltaY cx cy w h).center
          = (s.center.1
              - (cx - w / 2) / (w / 2) * (s.zoom * (1 / ZOOM_IN) * (1 - ZOOM_IN)),
             s.center.2
              + (cy - h / 2) / (h / 2) * (s.zoom * (1 / ZOOM_IN) * (1 - ZOOM_IN))) ∧
        (on_wheel s deltaY cx cy w h).zoom = s.zoom * (1 / ZOOM_IN) ∧
        (on_wheel s deltaY cx cy w h).iterations
          = rustRound ((s.iterations : ℚ) / (11 / 10))) := by
  intro s deltaY cx cy w h
  constructor
  · intro hz
    simp only [on_wheel, scrollSpec, if_pos hz, one_mul]
  · intro hz
    refine ⟨?_, ?_, ?_⟩
    · simp only [on_wheel, if_neg hz]
    · simp [on_wheel, if_neg hz]
    · simp [on_wheel, if_neg hz]

/-- Witness for the amended C4: a zoom-in event agrees with the spec-order
handler. -/
theorem C4_scroll_order_witness :
    on_wheel (initState 100 80) (-1) 30 40 100 80
      = scrollSpec (initState 100 80) (-1) 30 40 100 80 :=
  (C4_scroll_order (initState 100 80) (-1) 30 40 100 80).1 (by norm_num)

/-- C5: a Resize with zero width is not a no-op in the code. From the
startup state, Resize(0, 100) stores the degenerate resolution and divides
zoom by the aspect ratio 0 / 100 = 0, driving the lower imaginary bound to
negative infinity (a non-finite value), in contradiction with the claimed
state preservation. -/
theorem C5_degenerate_resize :
    on_resize (initState 800 600) 0 100 ≠ initState 800 600 ∧
    (on_resize (initState 800 600) 0 100).bmin.2 = F32.negInf ∧
    (on_resize (initState 800 600) 0 100).resolution = (0, 100) := by
  refine ⟨?_, ?_, ?_⟩
  · intro h
    have hres := congrArg ViewportState.resolution h
    norm_num [on_resize, initState] at hres
  · norm_num [on_resize, initState, boundsOf, fdiv, fdivF, fsub]
  · norm_num [on_resize, initState]

/-- C6 counterexample: a zoom-out event from iterations = 3 stalls:
round(3 / 1.1) = round(2.727..) = 3, so iterations does not strictly
decrease. -/
theorem C6_counterexample :
    ({ initState 100 100 with iterations := 3 } : ViewportState).iterations = 3 ∧
    (on_wheel { initState 100 100 with iterations := 3 } 1 50 50 100 100).iterations
      = 3 := by
  constructor
  · rfl
  · norm_num [on_wheel, rustRound]

/-- C6 amended: zoom-in strictly increases iterations once it is at least
5 and leaves it unchanged for 1..4; zoom-out strictly decreases it once it
is at least 6 and leaves it unchanged for 1..5; from any value at least 1
the result never drops below 1 (so 0 or negative budgets are unreachable,
although the code has no explicit clamp). -/
theorem C6_iteration_monotonicity :
    ∀ (s : ViewportState) (deltaY cx cy w h : ℚ),
      (deltaY < 0 → 5 ≤ s.iterations →
        s.iterations < (on_wheel s deltaY cx cy w h).iterations) ∧
      (deltaY < 0 → 1 ≤ s.iterations → s.iterations ≤ 4 →
        (on_wheel s deltaY cx cy w h).iterations = s.iterations) ∧
      (¬ deltaY < 0 → 6 ≤ s.iterations →
        (on_wheel s deltaY cx cy w h).iterations < s.iterations) ∧
      (¬ deltaY < 0 → 1 ≤ s.iterations → s.iterations ≤ 5 →
        (on_wheel s deltaY cx cy w h).iterations = s.iterations) ∧
      (1 ≤ s.iterations → 1 ≤ (on_wheel s deltaY cx cy w h).iterations) := by
  intro s deltaY cx cy w h
  have hit : (on_wheel s deltaY cx cy w h).iterations
      = if deltaY < 0 then rustRound ((s.iterations : ℚ) * (11 / 10))
        else rustRound ((s.iterations : ℚ) / (11 / 10)) := by
    by_cases hz : deltaY < 0 <;> simp [on_wheel, hz]
  refine ⟨?_, ?_, ?_, ?_, ?_⟩
  · intro hz hi
    have hiq : (5:ℚ) ≤ (s.iterations : ℚ) := by exact_mod_cast hi
    rw [hit, if_pos hz, rustRound, if_pos (by linarith)]
    rw [Int.lt_iff_add_one_le, Int.le_floor]
    push_cast
    linarith
  · intro hz hi1 hi4
    have hq1 : (1:ℚ) ≤ (s.iterations : ℚ) := by exact_mod_cast hi1
    have hq4 : (s.iterations : ℚ) ≤ 4 := by exact_mod_cast hi4
    rw [hit, if_pos hz, rustRound, if_pos (by linarith)]
    rw [Int.floor_eq_iff]
    constructor <;> linarith
  · intro hz hi
    have hiq : (6:ℚ) ≤ (s.iterations : ℚ) := by exact_mod_cast hi
    rw [hit, if_neg hz, rustRound, if_pos (by linarith)]
    rw [Int.floor_lt]
    linarith
  · intro hz hi1 hi5
    have hq1 : (1:ℚ) ≤ (s.iterations : ℚ) := by exact_mod_cast hi1
    have hq5 : (s.iterations : ℚ) ≤ 5 := by exact_mod_cast hi5
    rw [hit, if_neg hz, rustRound, if_pos (by linarith)]
    rw [Int.floor_eq_iff]
    constructor <;> linarith
  · intro hi
    have hq1 : (1:ℚ) ≤ (s.iterations : ℚ) := by exact_mod_cast hi
    rw [hit]
    by_cases hz : deltaY < 0
    · rw [if_pos hz, rustRound, if_pos (by linarith), Int.le_floor]
      push_cast
      linarith
    · rw [if_neg hz, rustRound, if_pos (by linarith), Int.le_floor]
      push_cast
      linarith

/-- Witness for the amended C6: from the startup budget 100, one zoom-in
strictly increases iterations. -/
theorem C6_iteration_monotonicity_witness :
    (initState 100 100).iterations
      < (on_wheel (initState 100 100) (-1) 0 0 100 100).iterations :=
  (C6_iteration_monotonicity (initState 100 100) (-1) 0 0 100 100).1
    (by norm_num) (by norm_num [initState])

/-- C7: a zoom-in scroll with the cursor exactly at the viewport center
leaves the center unchanged (the pan term vanishes) and multiplies zoom by
exactly the constant ZOOM_IN = 0.8. -/
theorem C7_zoom_anchor :
    ∀ (s : ViewportState) (deltaY cx cy w h : ℚ),
      deltaY < 0 → 0 < w → 0 < h → cx = w / 2 → cy = h / 2 →
      (on_wheel s deltaY cx cy w h).center = s.center ∧
      (on_wheel s deltaY cx cy w h).zoom = s.zoom * ZOOM_IN := by
  intro s deltaY cx cy w h hz hw hh hcx hcy
  subst hcx
  subst hcy
  constructor
  · simp [on_wheel, hz]
  · simp [on_wheel, hz]

/-- Witness for C7 at the startup state with a 100 x 80 viewport. -/
theorem C7_zoom_anchor_witness :
    (on_wheel (initState 100 80) (-1) 50 40 100 80).center
      = (initState 100 80).center ∧
    (on_wheel (initState 100 80) (-1) 50 40 100 80).zoom
      = (initState 100 80).zoom * ZOOM_IN :=
  C7_zoom_anchor (initState 100 80) (-1) 50 40 100 80 (by norm_num)
    (by norm_num) (by norm_num) (by norm_num) (by norm_num)

/-- C8: every resize, and any sequence of resizes, leaves center, zoom and
iterations unchanged; only resolution and the derived bounds are updated,
the bounds being recomputed from the unchanged center and zoom with the
new aspect ratio. -/
theorem C8_resize_invariance :
    ∀ (s : ViewportState) (w1 h1 w2 h2 : ℚ),
      (on_resize s w1 h1).center = s.center ∧
      (on_resize s w1 h1).zoom = s.zoom ∧
      (on_resize s w1 h1).iterations = s.iterations ∧
      on_resize (on_resize s w1 h1) w2 h2 = on_resize s w2 h2 ∧
      (on_resize s w2 h2).resolution = (w2, h2) ∧
      (0 < w2 → 0 < h2 →
        (on_resize s w2 h2).bmin
          = (F32.fin (s.center.1 - s.zoom),
             F32.fin (s.center.2 - s.zoom / (w2 / h2))) ∧
        (on_resize s w2 h2).bmax
          = (F32.fin (s.center.1 + s.zoom),
             F32.fin (s.center.2 + s.zoom / (w2 / h2)))) := by
  intro s w1 h1 w2 h2
  refine ⟨rfl, rfl, rfl, rfl, rfl, fun hw hh => ?_⟩
  have hh0 : h2 ≠ 0 := ne_of_gt hh
  have hr0 : w2 / h2 ≠ 0 := div_ne_zero (ne_of_gt hw) hh0
  constructor <;> simp [on_resize, boundsOf, fdiv, fdivF, fsub, fadd, hh0, hr0]

/-- Witness for C8 with two concrete resizes from the startup state. -/
theorem C8_resize_invariance_witness :
    (on_resize (initState 800 600) 640 480).bmin
      = (F32.fin ((initState 800 600).center.1 - (initState 800 600).zoom),
         F32.fin ((initState 800 600).center.2
           - (initState 800 600).zoom / ((640:ℚ) / 480))) ∧
    (on_resize (initState 800 600) 640 480).bmax
      = (F32.fin ((initState 800 600).center.1 + (initState 800 600).zoom),
         F32.fin ((initState 800 600).center.2
           + (initState 800 600).zoom / ((640:ℚ) / 480))) :=
  (C8_resize_invariance (initState 800 600) 300 200 640 480).2.2.2.2.2
    (by norm_num) (by norm_num)
